import Mathlib

/-!
Verification of the rclean directory-cleanup engine (src/lib.rs).

The Rust sources are shallowly embedded: paths are component lists
(`List String`), compiled glob matchers are boolean functions on paths,
filesystem calls (canonicalization, metadata, removal) appear as oracle
inputs recording what the OS returned, and the mutable `CleaningJob`
struct is split into its immutable `CleanConfig` and a `JobState`
record threaded explicitly (Rust methods take `&mut self`; here each
function takes the config and the state and returns the new state
together with the list of removal attempts it performed).
-/

namespace RClean

/-- A filesystem path, as its list of components (`Path` in Rust). -/
abbrev RPath := List String

/-- A compiled glob matcher (`GlobMatcher::is_match` in globset). -/
abbrev Matcher := RPath → Bool

/-- `CleanError` from src/lib.rs (payloads reduced to the data we track). -/
inductive CleanError where
  | ioError : String → CleanError
  | globError : String → CleanError
  | pathTraversal : RPath → CleanError
  | permissionDenied : RPath → CleanError
  | configError : String → CleanError
deriving DecidableEq, Repr

/-- The slice of `std::fs::Metadata` the engine reads.  `elapsed` is
`SystemTime::now().duration_since(modified)` in whole seconds; `none`
models `metadata.modified()` failing or a modification time in the
future (`duration_since` error). -/
structure Metadata where
  isFile : Bool
  isDir : Bool
  isSymlink : Bool
  len : Nat
  elapsed : Option Nat
deriving DecidableEq, Repr

/-- One entry yielded by the `WalkDir` iterator (after the `filter_map`
dropping walk errors), together with the answers the OS gives for the
calls the engine makes on it:
`followMetaOk` is whether `fs::metadata(entry_path)` (following
symlinks) succeeds, `metadata` is `entry.metadata()` (not following),
`canonical` is `entry_path.canonicalize()`, and `dirSize` is
`fs_extra::dir::get_size(entry_path).unwrap_or(0)`. -/
structure Entry where
  path : RPath
  isSymlink : Bool
  followMetaOk : Bool
  metadata : Option Metadata
  canonical : Option RPath
  dirSize : Nat
deriving DecidableEq, Repr

/-- `CleanConfig` from src/lib.rs (the fields the engine reads;
`path` is carried separately as the canonicalized base). -/
structure CleanConfig where
  patterns : List String
  exclude_patterns : List String
  dry_run : Bool
  skip_confirmation : Bool
  include_symlinks : Bool
  remove_broken_symlinks : Bool
  stats_mode : Bool
  older_than_secs : Option Nat
  json_mode : Bool
deriving DecidableEq, Repr

/-- `MatchedItem` from src/lib.rs. -/
structure MatchedItem where
  path : RPath
  size : Nat
  pattern : String
deriving DecidableEq, Repr

/-- The mutable aggregate state of `CleaningJob` (everything except the
config): buffered targets, running size and counter, per-pattern stats
(the `HashMap` as an association list), failed deletions, and the
matched-item records for JSON output. -/
structure JobState where
  targets : List (RPath × Metadata)
  size : Nat
  counter : Nat
  stats : List (String × Nat × Nat)
  failed_deletions : List (RPath × String)
  matched_items : List MatchedItem
deriving DecidableEq, Repr

/-- `CleaningJob::new`: empty aggregates. -/
def JobState.init : JobState :=
  { targets := [], size := 0, counter := 0, stats := [],
    failed_deletions := [], matched_items := [] }

/-- `self.stats.entry(pattern).or_insert((0,0))` followed by
incrementing the count and adding the size. -/
def statsUpdate : List (String × Nat × Nat) → String → Nat → List (String × Nat × Nat)
  | [], pat, sz => [(pat, 1, sz)]
  | (p, c, s) :: rest, pat, sz =>
      if p = pat then (p, c + 1, s + sz) :: rest
      else (p, c, s) :: statsUpdate rest pat sz

/-- `CleaningJob::should_process`: reject `.`, `..`, and any path whose
first component is `..` (Rust `Path::starts_with("..")`). -/
def should_process (p : RPath) : Bool :=
  if p = ["."] || p = [".."] then false
  else if p.head? = some ".." then false
  else true

/-- `CleaningJob::is_path_safe`: symlinks are accepted unconditionally;
otherwise, if canonicalization succeeded the canonical path must start
with the canonicalized base; a canonicalization failure leaves the
check passing (the Rust code only rejects inside `if let Ok(..)`). -/
def is_path_safe (base : RPath) (canonical : Option RPath) (is_symlink : Bool) : Bool :=
  if is_symlink then true
  else
    match canonical with
    | some c => base.isPrefixOf c
    | none => true

/-- `CleaningJob::find_matching_pattern`: first matcher that matches,
in declaration order. -/
def find_matching_pattern : List (String × Matcher) → RPath → Option String
  | [], _ => none
  | (pat, m) :: rest, p => if m p then some pat else find_matching_pattern rest p

/-- The age filter inside `handle_matched_entry`: skip iff a threshold
is configured, the elapsed-seconds computation succeeded, and the
elapsed time is strictly below the threshold. -/
def ageSkip (cfg : CleanConfig) (md : Metadata) : Bool :=
  match cfg.older_than_secs, md.elapsed with
  | some t, some e => e < t
  | _, _ => false

/-- The `item_size` computation in `handle_matched_entry`: file length
for files, recursive directory size for directories, zero otherwise. -/
def itemSize (e : Entry) (md : Metadata) : Nat :=
  if md.isFile then md.len
  else if md.isDir then e.dirSize
  else 0

/-- Whether `remove_path` attempts a removal for this metadata
(directory, file, or symlink; any other type is skipped with a
warning). -/
def removable (md : Metadata) : Bool :=
  md.isDir || md.isFile || md.isSymlink

/-- `CleaningJob::remove_path`.  The `remove` oracle is what
`fs::remove_dir_all` / `fs::remove_file` returns for a path: `none` for
success, `some msg` for the error message.  Returns the new state, the
removal attempts made (the path, when its type is removable), and
whether the removal succeeded. -/
def remove_path (remove : RPath → Option String) (s : JobState)
    (p : RPath) (md : Metadata) : JobState × List RPath × Bool :=
  if removable md then
    match remove p with
    | none => (s, [p], true)
    | some msg =>
        ({ s with failed_deletions := s.failed_deletions ++ [(p, msg)] }, [p], false)
  else (s, [], false)

/-- `CleaningJob::remove_entry`: re-reads the entry metadata and calls
`remove_path`; a metadata failure just logs and returns. -/
def remove_entry (remove : RPath → Option String) (s : JobState)
    (e : Entry) : JobState × List RPath × Bool :=
  match e.metadata with
  | some md => remove_path remove s e.path md
  | none => (s, [], false)

/-- `CleaningJob::handle_matched_entry`: fetch metadata (a failure
skips the entry), apply the age filter, accumulate size and counter,
update stats and JSON records per the flags, then either delete
immediately (skip-confirmation and not dry-run) or buffer the target.
Returns the new state, removal attempts, and whether an immediate
removal succeeded. -/
def handle_matched_entry (remove : RPath → Option String) (cfg : CleanConfig)
    (e : Entry) (pat : String) (s : JobState) : JobState × List RPath × Bool :=
  match e.metadata with
  | none => (s, [], false)
  | some md =>
      if ageSkip cfg md then (s, [], false)
      else
        let sz := itemSize e md
        let s1 := { s with size := s.size + sz, counter := s.counter + 1 }
        let s2 := if cfg.stats_mode
          then { s1 with stats := statsUpdate s1.stats pat sz } else s1
        let s3 := if cfg.json_mode
          then { s2 with matched_items :=
                   s2.matched_items ++ [⟨e.path, sz, pat⟩] } else s2
        if cfg.skip_confirmation && !cfg.dry_run then
          remove_entry remove s3 e
        else
          ({ s3 with targets := s3.targets ++ [(e.path, md)] }, [], false)

/-- One iteration of the `collect_targets` walk loop: basic path
filtering, the broken-symlink route, include matching, exclude
matching, the symlink-inclusion policy, the safety guard, pattern
attribution, then `handle_matched_entry`. -/
def collect_step (remove : RPath → Option String) (base : RPath)
    (ms : List (String × Matcher)) (ex : Option Matcher) (cfg : CleanConfig)
    (s : JobState) (e : Entry) : JobState × List RPath × Bool :=
  if !should_process e.path then (s, [], false)
  else if cfg.remove_broken_symlinks && e.isSymlink && !e.followMetaOk then
    handle_matched_entry remove cfg e "broken-symlink" s
  else if !(ms.any fun pm => pm.2 e.path) then (s, [], false)
  else if (match ex with | some x => x e.path | none => false) then (s, [], false)
  else if e.isSymlink && !cfg.include_symlinks then (s, [], false)
  else if !is_path_safe base e.canonical e.isSymlink then (s, [], false)
  else
    handle_matched_entry remove cfg e
      ((find_matching_pattern ms e.path).getD "unknown") s

/-- `CleaningJob::collect_targets` over a given walk sequence: fold
`collect_step` over the entries, concatenating removal attempts. -/
def collect_targets (remove : RPath → Option String) (base : RPath)
    (ms : List (String × Matcher)) (ex : Option Matcher) (cfg : CleanConfig) :
    JobState → List Entry → JobState × List RPath
  | s, [] => (s, [])
  | s, e :: rest =>
      let r := collect_step remove base ms ex cfg s e
      let rr := collect_targets remove base ms ex cfg r.1 rest
      (rr.1, r.2.1 ++ rr.2)

/-- The `for` loop of `CleaningJob::execute_deletion`: unless dry-run,
remove each buffered target in order; failures accumulate in
`failed_deletions` and never stop the loop. -/
def delete_loop (remove : RPath → Option String) (cfg : CleanConfig) :
    JobState → List (RPath × Metadata) → JobState × List RPath
  | s, [] => (s, [])
  | s, t :: rest =>
      if !cfg.dry_run then
        let r := remove_path remove s t.1 t.2
        let rr := delete_loop remove cfg r.1 rest
        (rr.1, r.2.1 ++ rr.2)
      else delete_loop remove cfg s rest

/-- `CleaningJob::execute_deletion`: `mem::take` the buffered targets,
then run the deletion loop over them. -/
def execute_deletion (remove : RPath → Option String) (cfg : CleanConfig)
    (s : JobState) : JobState × List RPath :=
  delete_loop remove cfg { s with targets := [] } s.targets

/-- Compile a pattern list with the glob-compilation oracle `G`
(`Glob::new`: `none` models a syntactically invalid pattern), keeping
the (pattern, matcher) pairs in order; the first invalid pattern
aborts, as `?` does in `build_globsets`. -/
def compileAll (G : String → Option Matcher) :
    List String → Except CleanError (List (String × Matcher))
  | [] => .ok []
  | p :: rest =>
      match G p with
      | none => .error (.globError p)
      | some m =>
          match compileAll G rest with
          | .error e => .error e
          | .ok ms => .ok ((p, m) :: ms)

/-- `CleaningJob::build_globsets`: compile every include pattern (the
`GlobSet` and the per-pattern attribution matchers come from the same
globs, so the set's `is_match` is `any` over the matchers), then, if
there are exclude patterns, compile them into an exclude set. -/
def build_globsets (G : String → Option Matcher) (cfg : CleanConfig) :
    Except CleanError (List (String × Matcher) × Option Matcher) :=
  match compileAll G cfg.patterns with
  | .error e => .error e
  | .ok ms =>
      if cfg.exclude_patterns.isEmpty then .ok (ms, none)
      else
        match compileAll G cfg.exclude_patterns with
        | .error e => .error e
        | .ok exs => .ok (ms, some fun p => exs.any fun pm => pm.2 p)

/-- The confirmation-and-deletion tail of `CleaningJob::run`, shared by
the entry-list and tree models.  `confirm` is the answer the dialoguer
prompt returns (`none`: the prompt mechanism itself failed). -/
def finish_run (remove : RPath → Option String) (cfg : CleanConfig)
    (confirm : Option Bool) (s : JobState) (atts : List RPath) :
    Except CleanError Unit × JobState × List RPath :=
  if !s.targets.isEmpty && !cfg.skip_confirmation then
    match confirm with
    | none => (.error (.configError "Confirmation failed"), s, atts)
    | some true =>
        let r := execute_deletion remove cfg s
        (.ok (), r.1, atts ++ r.2)
    | some false => (.ok (), s, atts)
  else (.ok (), s, atts)

/-- `CleaningJob::run` over a given walk sequence: canonicalize the
base path (`baseCanonical` is the OS answer; `none` is a fatal config
error), build the globsets, collect targets, then confirm and delete.
Statistics display and the summary log are pure output and omitted. -/
def run (G : String → Option Matcher) (remove : RPath → Option String)
    (confirm : Option Bool) (baseCanonical : Option RPath) (cfg : CleanConfig)
    (entries : List Entry) (s : JobState) :
    Except CleanError Unit × JobState × List RPath :=
  match baseCanonical with
  | none => (.error (.configError "Invalid path"), s, [])
  | some base =>
      match build_globsets G cfg with
      | .error e => (.error e, s, [])
      | .ok (ms, ex) =>
          let r := collect_targets remove base ms ex cfg s entries
          finish_run remove cfg confirm r.1 r.2

/-!
A concrete filesystem refinement of the walk: a symlink-free directory
tree, walked in `WalkDir`'s order (a directory before its contents).
In eager-deletion mode (`skip_confirmation` and not dry-run) the code
deletes a matched directory the moment it is handled; `WalkDir` then
fails to read the vanished directory and its children drop out of the
walk (the walk error is `filter_map`-ed away), so a successful eager
removal prunes the subtree.
-/

/-- A directory tree: files carry their length and elapsed-seconds
since modification, directories carry their elapsed time and named
children. -/
inductive FSTree where
  | file (size : Nat) (elapsed : Option Nat) : FSTree
  | dir (elapsed : Option Nat) (children : List (String × FSTree)) : FSTree
deriving Repr

mutual

/-- `fs_extra::dir::get_size`: total size of the files in a subtree. -/
def treeSize : FSTree → Nat
  | .file sz _ => sz
  | .dir _ cs => forestSize cs

/-- Sum of `treeSize` over named children. -/
def forestSize : List (String × FSTree) → Nat
  | [] => 0
  | c :: rest => treeSize c.2 + forestSize rest

end

/-- The walk entry a tree node presents at a given path: no symlinks,
all OS calls succeed, canonicalization is the identity (the walk never
leaves the tree). -/
def FSTree.toEntry (path : RPath) : FSTree → Entry
  | .file sz el =>
      { path := path, isSymlink := false, followMetaOk := true,
        metadata := some { isFile := true, isDir := false, isSymlink := false,
                           len := sz, elapsed := el },
        canonical := some path, dirSize := 0 }
  | .dir el cs =>
      { path := path, isSymlink := false, followMetaOk := true,
        metadata := some { isFile := false, isDir := true, isSymlink := false,
                           len := 0, elapsed := el },
        canonical := some path, dirSize := forestSize cs }

mutual

/-- The `collect_targets` walk over a concrete tree: process the node,
and, for a directory, descend into its children unless an eager
removal of the directory just succeeded (the pruning described above). -/
def walkTree (remove : RPath → Option String) (base : RPath)
    (ms : List (String × Matcher)) (ex : Option Matcher) (cfg : CleanConfig)
    (path : RPath) (t : FSTree) (s : JobState) : JobState × List RPath :=
  let r := collect_step remove base ms ex cfg s (t.toEntry path)
  match t with
  | .file _ _ => (r.1, r.2.1)
  | .dir _ cs =>
      if r.2.2 then (r.1, r.2.1)
      else
        let rr := walkForest remove base ms ex cfg path cs r.1
        (rr.1, r.2.1 ++ rr.2)

/-- Walk the children of a directory in order. -/
def walkForest (remove : RPath → Option String) (base : RPath)
    (ms : List (String × Matcher)) (ex : Option Matcher) (cfg : CleanConfig)
    (path : RPath) : List (String × FSTree) → JobState → JobState × List RPath
  | [], s => (s, [])
  | c :: rest, s =>
      let r := walkTree remove base ms ex cfg (path ++ [c.1]) c.2 s
      let rr := walkForest remove base ms ex cfg path rest r.1
      (rr.1, r.2 ++ rr.2)

end

/-- `CleaningJob::run` against a concrete tree rooted at `root` (the
root path is its own canonical form, so base = root): build globsets,
walk the tree (the root node is the walk's first entry), then confirm
and delete. -/
def runTree (G : String → Option Matcher) (remove : RPath → Option String)
    (confirm : Option Bool) (root : RPath) (tree : FSTree) (cfg : CleanConfig)
    (s : JobState) : Except CleanError Unit × JobState × List RPath :=
  match build_globsets G cfg with
  | .error e => (.error e, s, [])
  | .ok (ms, ex) =>
      let r := walkTree remove root ms ex cfg root tree s
      finish_run remove cfg confirm r.1 r.2

/-!
Concrete inputs used by witnesses and counterexamples.
-/

/-- Matcher for the glob `**/__pycache__`: last component is
`__pycache__`. -/
def mPycache : Matcher := fun p => p.getLast? == some "__pycache__"

/-- String suffix test (structural recursion over the character
lists, so it evaluates by `rfl`). -/
def strEndsWith (s t : String) : Bool := t.data.isSuffixOf s.data

/-- Matcher for the glob `**/*.pyc`: last component ends in `.pyc`. -/
def mPyc : Matcher := fun p => strEndsWith (p.getLast?.getD "") ".pyc"

/-- A glob-compilation oracle knowing the two patterns above; every
other pattern string is reported invalid. -/
def exG : String → Option Matcher := fun s =>
  if s = "**/__pycache__" then some mPycache
  else if s = "**/*.pyc" then some mPyc
  else none

/-- A removal oracle on which every removal succeeds. -/
def removeOk : RPath → Option String := fun _ => none

/-- `root/__pycache__/x.pyc`: a matched directory containing a matched
file. -/
def exTree : FSTree :=
  .dir none [("__pycache__", .dir none [("x.pyc", .file 10 none)])]

/-- Base configuration for the examples: both patterns, eager mode
(skip confirmation), stats on. -/
def exCfg : CleanConfig :=
  { patterns := ["**/__pycache__", "**/*.pyc"], exclude_patterns := [],
    dry_run := false, skip_confirmation := true, include_symlinks := false,
    remove_broken_symlinks := false, stats_mode := true,
    older_than_secs := none, json_mode := true }

/-- A matcher that matches every path (used as both an include and an
exclude matcher in examples). -/
def mAll : Matcher := fun _ => true

/-- A removal oracle failing on `root/a` with a permission error and
succeeding elsewhere. -/
def removeFailA : RPath → Option String :=
  fun p => if p = ["root", "a"] then some "Permission denied" else none

/-- Metadata of a plain 5-byte file last modified long ago. -/
def mdFile : Metadata :=
  { isFile := true, isDir := false, isSymlink := false, len := 5,
    elapsed := some 9999 }

/-- A walk entry for a plain file `root/a.pyc` inside the base. -/
def eFile : Entry :=
  { path := ["root", "a.pyc"], isSymlink := false, followMetaOk := true,
    metadata := some mdFile, canonical := some ["root", "a.pyc"], dirSize := 0 }

/-- Metadata of a symlink itself (not followed). -/
def mdSymlink : Metadata :=
  { isFile := false, isDir := false, isSymlink := true, len := 0,
    elapsed := some 9999 }

/-- A walk entry for a broken symlink `root/link`: following it fails,
its own metadata is symlink metadata. -/
def eBroken : Entry :=
  { path := ["root", "link"], isSymlink := true, followMetaOk := false,
    metadata := some mdSymlink, canonical := none, dirSize := 0 }

/-- A walk entry for a file `root/ghost.pyc` whose canonicalization
fails (say, it vanished between the walk and the check). -/
def eNoCanon : Entry :=
  { path := ["root", "ghost.pyc"], isSymlink := false, followMetaOk := true,
    metadata := some { isFile := true, isDir := false, isSymlink := false,
                       len := 3, elapsed := some 9999 },
    canonical := none, dirSize := 0 }

/-- A job state holding two buffered file targets `root/a`, `root/b`. -/
def sTwoTargets : JobState :=
  { JobState.init with
    targets := [(["root", "a"], mdFile), (["root", "b"], mdFile)] }

/-- What passing the walk-loop filters guarantees about an entry: its
path does not begin with `..`, and, unless it is a symlink, any
successful canonicalization of it lies under the base. -/
def guardOk (base : RPath) (e : Entry) : Prop :=
  ¬(e.path.head? = some "..") ∧
  (e.isSymlink = false → ∀ c, e.canonical = some c → base.isPrefixOf c)

/-!
Basic lemmas about the building blocks.
-/

theorem should_process_head {p : RPath} (h : should_process p = true) :
    ¬(p.head? = some "..") := by
  unfold should_process at h
  split at h
  · exact absurd h (by simp)
  · split at h
    · exact absurd h (by simp)
    · assumption

theorem is_path_safe_spec {base : RPath} {canonical : Option RPath}
    (h : is_path_safe base canonical false = true) :
    ∀ c, canonical = some c → base.isPrefixOf c := by
  intro c hc
  subst hc
  simpa [is_path_safe] using h

/-- Closed form of `remove_path`: only `failed_deletions` can change,
the path is attempted exactly when its type is removable, and the
success flag records the oracle's answer. -/
theorem remove_path_eq (remove : RPath → Option String) (s : JobState)
    (p : RPath) (md : Metadata) :
    remove_path remove s p md =
      ({ s with failed_deletions := s.failed_deletions ++
            (if removable md then
              (match remove p with | none => [] | some m => [(p, m)])
             else []) },
       (if removable md then [p] else []),
       (if removable md then (remove p).isNone else false)) := by
  unfold remove_path
  split
  · rename_i hr
    cases hrem : remove p <;> simp [hr, hrem]
  · rename_i hr
    simp [hr]

theorem remove_path_counter (remove : RPath → Option String) (s : JobState)
    (p : RPath) (md : Metadata) :
    (remove_path remove s p md).1.counter = s.counter ∧
    (remove_path remove s p md).1.size = s.size ∧
    (remove_path remove s p md).1.stats = s.stats ∧
    (remove_path remove s p md).1.matched_items = s.matched_items ∧
    (remove_path remove s p md).1.targets = s.targets := by
  rw [remove_path_eq]
  simp

/-- After the age filter passes, `handle_matched_entry` increments the
counter, adds the item size, and, in eager mode with a removable type,
attempts exactly one removal of the entry path. -/
theorem handle_accum (remove : RPath → Option String) (cfg : CleanConfig)
    (e : Entry) (pat : String) (s : JobState) (md : Metadata)
    (hmd : e.metadata = some md) (ha : ageSkip cfg md = false) :
    (handle_matched_entry remove cfg e pat s).1.counter = s.counter + 1 ∧
    (handle_matched_entry remove cfg e pat s).1.size = s.size + itemSize e md ∧
    (cfg.skip_confirmation = true → cfg.dry_run = false → removable md = true →
      (handle_matched_entry remove cfg e pat s).2.1 = [e.path]) := by
  unfold handle_matched_entry
  rw [hmd]
  simp only [ha]
  by_cases hsm : cfg.stats_mode <;> by_cases hj : cfg.json_mode <;>
    by_cases heag : cfg.skip_confirmation && !cfg.dry_run <;>
      simp [hsm, hj, heag, remove_entry, hmd, remove_path_eq] <;>
      (intro h1 h2
       exact absurd (by simp [h1, h2] : (cfg.skip_confirmation && !cfg.dry_run) = true) heag)

/-- When the age filter rejects an entry, `handle_matched_entry`
changes nothing and performs no removal. -/
theorem handle_age_rejects (remove : RPath → Option String) (cfg : CleanConfig)
    (e : Entry) (pat : String) (s : JobState) (md : Metadata)
    (hmd : e.metadata = some md) (ha : ageSkip cfg md = true) :
    handle_matched_entry remove cfg e pat s = (s, [], false) := by
  unfold handle_matched_entry
  rw [hmd]
  simp only [ha, if_pos]

/-- `handle_matched_entry` only ever appends targets carrying the
entry's own path, and only ever attempts removal of the entry's own
path. -/
theorem handle_analysis (remove : RPath → Option String) (cfg : CleanConfig)
    (e : Entry) (pat : String) (s : JobState) :
    ∃ ts, (handle_matched_entry remove cfg e pat s).1.targets = s.targets ++ ts ∧
      (∀ q ∈ ts, q.1 = e.path) ∧
      (∀ p ∈ (handle_matched_entry remove cfg e pat s).2.1, p = e.path) := by
  unfold handle_matched_entry
  cases hmd : e.metadata with
  | none => exact ⟨[], by simp, by simp, by simp⟩
  | some md =>
      by_cases ha : ageSkip cfg md
      · exact ⟨[], by simp [ha], by simp, by simp [ha]⟩
      · by_cases heag : cfg.skip_confirmation && !cfg.dry_run
        · refine ⟨[], ?_, by simp, ?_⟩
          · by_cases hsm : cfg.stats_mode <;> by_cases hj : cfg.json_mode <;>
              simp [ha, heag, hsm, hj, remove_entry, hmd, remove_path_eq]
          · by_cases hsm : cfg.stats_mode <;> by_cases hj : cfg.json_mode <;>
              simp [ha, heag, hsm, hj, remove_entry, hmd, remove_path_eq]
        · refine ⟨[(e.path, md)], ?_, by simp, ?_⟩
          · by_cases hsm : cfg.stats_mode <;> by_cases hj : cfg.json_mode <;>
              simp [ha, heag, hsm, hj]
          · by_cases hsm : cfg.stats_mode <;> by_cases hj : cfg.json_mode <;>
              simp [ha, heag, hsm, hj]

/-- Without eager deletion (confirmation not skipped, or dry-run),
`handle_matched_entry` attempts no removal and reports no deletion. -/
theorem handle_no_eager (remove : RPath → Option String) (cfg : CleanConfig)
    (e : Entry) (pat : String) (s : JobState)
    (h : cfg.skip_confirmation = false ∨ cfg.dry_run = true) :
    (handle_matched_entry remove cfg e pat s).2 = ([], false) := by
  have heag : (cfg.skip_confirmation && !cfg.dry_run) = false := by
    rcases h with h | h <;> simp [h]
  unfold handle_matched_entry
  cases hmd : e.metadata with
  | none => rfl
  | some md =>
      by_cases ha : ageSkip cfg md <;> simp [ha, heag]

/-- Every target appended and every removal attempted by one walk-loop
iteration carries the entry's own path, and the entry passed the
lexical filter and the safety guard. -/
theorem collect_step_safe (remove : RPath → Option String) (base : RPath)
    (ms : List (String × Matcher)) (ex : Option Matcher) (cfg : CleanConfig)
    (s : JobState) (e : Entry) :
    ∃ ts, (collect_step remove base ms ex cfg s e).1.targets = s.targets ++ ts ∧
      (∀ q ∈ ts, q.1 = e.path ∧ guardOk base e) ∧
      (∀ p ∈ (collect_step remove base ms ex cfg s e).2.1, p = e.path ∧ guardOk base e) := by
  unfold collect_step
  split
  · exact ⟨[], by simp, by simp, by simp⟩
  · rename_i hsp
    have hsp2 : should_process e.path = true := by
      by_cases h : should_process e.path <;> simp_all
    split
    · rename_i hbr
      have hsym : e.isSymlink = true := by
        rcases (by simpa using hbr : (_ ∧ e.isSymlink = true) ∧ _) with ⟨⟨-, h2⟩, -⟩
        exact h2
      have hg : guardOk base e :=
        ⟨should_process_head hsp2, by intro hns; rw [hns] at hsym; cases hsym⟩
      obtain ⟨ts, h1, h2, h3⟩ := handle_analysis remove cfg e "broken-symlink" s
      exact ⟨ts, h1, fun q hq => ⟨h2 q hq, hg⟩, fun p hp => ⟨h3 p hp, hg⟩⟩
    · split
      · exact ⟨[], by simp, by simp, by simp⟩
      · split
        · exact ⟨[], by simp, by simp, by simp⟩
        · split
          · exact ⟨[], by simp, by simp, by simp⟩
          · split
            · exact ⟨[], by simp, by simp, by simp⟩
            · rename_i hsafe
              have hsafe2 : is_path_safe base e.canonical e.isSymlink = true := by
                by_cases h : is_path_safe base e.canonical e.isSymlink <;> simp_all
              have hg : guardOk base e := by
                refine ⟨should_process_head hsp2, fun hns c hc => ?_⟩
                rw [hns] at hsafe2
                exact is_path_safe_spec hsafe2 c hc
              obtain ⟨ts, h1, h2, h3⟩ :=
                handle_analysis remove cfg e ((find_matching_pattern ms e.path).getD "unknown") s
              exact ⟨ts, h1, fun q hq => ⟨h2 q hq, hg⟩, fun p hp => ⟨h3 p hp, hg⟩⟩

/-- Without eager deletion, one walk-loop iteration attempts no
removal and reports no deletion. -/
theorem collect_step_no_eager (remove : RPath → Option String) (base : RPath)
    (ms : List (String × Matcher)) (ex : Option Matcher) (cfg : CleanConfig)
    (s : JobState) (e : Entry)
    (h : cfg.skip_confirmation = false ∨ cfg.dry_run = true) :
    (collect_step remove base ms ex cfg s e).2 = ([], false) := by
  unfold collect_step
  split
  · rfl
  · split
    · exact handle_no_eager remove cfg e _ s h
    · split
      · rfl
      · split
        · rfl
        · split
          · rfl
          · split
            · rfl
            · exact handle_no_eager remove cfg e _ s h

/-- Provenance over a whole walk: every target collected and every
removal attempted comes from some walked entry that passed the lexical
filter and the safety guard. -/
theorem collect_targets_safe (remove : RPath → Option String) (base : RPath)
    (ms : List (String × Matcher)) (ex : Option Matcher) (cfg : CleanConfig)
    (entries : List Entry) : ∀ s : JobState,
    ∃ ts, (collect_targets remove base ms ex cfg s entries).1.targets = s.targets ++ ts ∧
      (∀ q ∈ ts, ∃ e ∈ entries, q.1 = e.path ∧ guardOk base e) ∧
      (∀ p ∈ (collect_targets remove base ms ex cfg s entries).2,
        ∃ e ∈ entries, p = e.path ∧ guardOk base e) := by
  induction entries with
  | nil => exact fun s => ⟨[], by simp [collect_targets], by simp, by simp [collect_targets]⟩
  | cons e rest ih =>
      intro s
      obtain ⟨ts1, h1, hq1, hp1⟩ := collect_step_safe remove base ms ex cfg s e
      obtain ⟨ts2, h2, hq2, hp2⟩ := ih (collect_step remove base ms ex cfg s e).1
      refine ⟨ts1 ++ ts2, ?_, ?_, ?_⟩
      · simp only [collect_targets]
        rw [h2, h1, List.append_assoc]
      · intro q hq
        rcases List.mem_append.mp hq with hq | hq
        · exact ⟨e, by simp, (hq1 q hq).1, (hq1 q hq).2⟩
        · obtain ⟨e2, he2, hqe⟩ := hq2 q hq
          exact ⟨e2, by simp [he2], hqe⟩
      · intro p hp
        simp only [collect_targets] at hp
        rcases List.mem_append.mp hp with hp | hp
        · exact ⟨e, by simp, (hp1 p hp).1, (hp1 p hp).2⟩
        · obtain ⟨e2, he2, hpe⟩ := hp2 p hp
          exact ⟨e2, by simp [he2], hpe⟩

/-- Without eager deletion a whole walk attempts no removal. -/
theorem collect_targets_no_eager (remove : RPath → Option String) (base : RPath)
    (ms : List (String × Matcher)) (ex : Option Matcher) (cfg : CleanConfig)
    (entries : List Entry)
    (h : cfg.skip_confirmation = false ∨ cfg.dry_run = true) : ∀ s : JobState,
    (collect_targets remove base ms ex cfg s entries).2 = [] := by
  induction entries with
  | nil => intro s; rfl
  | cons e rest ih =>
      intro s
      simp only [collect_targets]
      have hs := collect_step_no_eager remove base ms ex cfg s e h
      have : (collect_step remove base ms ex cfg s e).2.1 = [] := by
        rw [hs]
      rw [this, ih]
      rfl

/-- Closed form of the deletion loop in a real (non-dry) run: every
removable target is attempted, in order, whatever the removal oracle
answers, every failure is recorded as a (path, message) pair, and no
other state field changes. -/
theorem delete_loop_spec (remove : RPath → Option String) (cfg : CleanConfig)
    (h : cfg.dry_run = false) (ts : List (RPath × Metadata)) : ∀ s : JobState,
    delete_loop remove cfg s ts =
      ({ s with failed_deletions := s.failed_deletions ++
          ts.filterMap fun t =>
            if removable t.2 then (remove t.1).map (fun m => (t.1, m)) else none },
       ts.filterMap fun t => if removable t.2 then some t.1 else none) := by
  induction ts with
  | nil => intro s; simp [delete_loop]
  | cons t rest ih =>
      intro s
      simp only [delete_loop, h, Bool.not_false, if_pos, remove_path_eq]
      rw [ih]
      by_cases hr : removable t.2
      · cases hrem : remove t.1 <;>
          simp [hr, hrem, List.filterMap_cons, List.append_assoc]
      · simp [hr, List.filterMap_cons]

/-- In a dry run the deletion loop does nothing. -/
theorem delete_loop_dry (remove : RPath → Option String) (cfg : CleanConfig)
    (h : cfg.dry_run = true) (ts : List (RPath × Metadata)) : ∀ s : JobState,
    delete_loop remove cfg s ts = (s, []) := by
  induction ts with
  | nil => intro s; rfl
  | cons t rest ih => intro s; simp only [delete_loop, h]; simpa using ih s

/-- Every path the deletion loop attempts is the path of one of the
targets it was given. -/
theorem delete_loop_atts_sub (remove : RPath → Option String) (cfg : CleanConfig)
    (ts : List (RPath × Metadata)) : ∀ s : JobState,
    ∀ p ∈ (delete_loop remove cfg s ts).2, ∃ md, (p, md) ∈ ts := by
  induction ts with
  | nil => intro s p hp; simp [delete_loop] at hp
  | cons t rest ih =>
      intro s p hp
      by_cases h : cfg.dry_run
      · rw [delete_loop_dry remove cfg h _ s] at hp
        simp at hp
      · have h2 : cfg.dry_run = false := by simpa using h
        simp only [delete_loop, h2, Bool.not_false, if_pos, remove_path_eq] at hp
        rcases List.mem_append.mp hp with hp | hp
        · refine ⟨t.2, ?_⟩
          have : p = t.1 := by
            by_cases hr : removable t.2 <;> simp [hr] at hp
            · exact hp
          simp [this]
        · obtain ⟨md, hmd⟩ := ih _ p hp
          exact ⟨md, by simp [hmd]⟩

/-- If the confirmation mechanism is available, the run tail succeeds
(both answers, and the no-prompt branch, return `Ok`). -/
theorem finish_run_ok (remove : RPath → Option String) (cfg : CleanConfig)
    (confirm : Option Bool) (s : JobState) (atts : List RPath)
    (h : confirm.isSome) :
    (finish_run remove cfg confirm s atts).1 = .ok () := by
  unfold finish_run
  split
  · cases confirm with
    | none => simp at h
    | some b => cases b <;> rfl
  · rfl

/-- A negative confirmation answer returns `Ok` with the state and the
attempt log exactly as the walk left them. -/
theorem finish_run_neg (remove : RPath → Option String) (cfg : CleanConfig)
    (s : JobState) (atts : List RPath) :
    finish_run remove cfg (some false) s atts = (.ok (), s, atts) := by
  unfold finish_run
  split <;> rfl

/-- Every removal the run tail attempts was either already attempted
during the walk or aims at a buffered target. -/
theorem finish_run_atts (remove : RPath → Option String) (cfg : CleanConfig)
    (confirm : Option Bool) (s : JobState) (atts : List RPath) :
    ∀ p ∈ (finish_run remove cfg confirm s atts).2.2,
      p ∈ atts ∨ ∃ md, (p, md) ∈ s.targets := by
  intro p hp
  unfold finish_run at hp
  split at hp
  · cases confirm with
    | none => exact .inl hp
    | some b =>
        cases b
        · exact .inl hp
        · simp only at hp
          rcases List.mem_append.mp hp with hp | hp
          · exact .inl hp
          · exact .inr (delete_loop_atts_sub remove cfg _ _ p hp)
  · exact .inl hp

/-- If every pattern in the list compiles, `compileAll` succeeds. -/
theorem compileAll_ok (G : String → Option Matcher) (l : List String)
    (h : ∀ q ∈ l, (G q).isSome) :
    ∃ ms, compileAll G l = .ok ms := by
  induction l with
  | nil => exact ⟨[], rfl⟩
  | cons p rest ih =>
      have hp : (G p).isSome := h p (by simp)
      obtain ⟨m, hm⟩ := Option.isSome_iff_exists.mp hp
      obtain ⟨ms, hms⟩ := ih fun q hq => h q (by simp [hq])
      exact ⟨(p, m) :: ms, by simp [compileAll, hm, hms]⟩

/-- If some pattern in the list is invalid, `compileAll` fails. -/
theorem compileAll_err (G : String → Option Matcher) (l : List String)
    (q : String) (hq : q ∈ l) (hbad : G q = none) :
    ∃ err, compileAll G l = .error err := by
  induction l with
  | nil => simp at hq
  | cons p rest ih =>
      rcases List.mem_cons.mp hq with hq | hq
      · subst hq
        exact ⟨.globError q, by simp [compileAll, hbad]⟩
      · cases hp : G p with
        | none => exact ⟨.globError p, by simp [compileAll, hp]⟩
        | some m =>
            obtain ⟨err, herr⟩ := ih hq
            exact ⟨err, by simp [compileAll, hp, herr]⟩

/-- If every include and exclude pattern compiles, `build_globsets`
succeeds. -/
theorem build_globsets_ok (G : String → Option Matcher) (cfg : CleanConfig)
    (h : ∀ q ∈ cfg.patterns ++ cfg.exclude_patterns, (G q).isSome) :
    ∃ msex, build_globsets G cfg = .ok msex := by
  obtain ⟨ms, hms⟩ :=
    compileAll_ok G cfg.patterns fun q hq => h q (List.mem_append_left _ hq)
  by_cases he : cfg.exclude_patterns.isEmpty
  · exact ⟨(ms, none), by simp [build_globsets, hms, he]⟩
  · obtain ⟨exs, hexs⟩ :=
      compileAll_ok G cfg.exclude_patterns fun q hq => h q (List.mem_append_right _ hq)
    exact ⟨(ms, some fun p => exs.any fun pm => pm.2 p),
      by simp [build_globsets, hms, he, hexs]⟩

/-- If some include or exclude pattern is invalid, `build_globsets`
fails. -/
theorem build_globsets_err (G : String → Option Matcher) (cfg : CleanConfig)
    (q : String) (hq : q ∈ cfg.patterns ++ cfg.exclude_patterns)
    (hbad : G q = none) :
    ∃ err, build_globsets G cfg = .error err := by
  rcases List.mem_append.mp hq with hq | hq
  · obtain ⟨err, herr⟩ := compileAll_err G cfg.patterns q hq hbad
    exact ⟨err, by simp [build_globsets, herr]⟩
  · cases hinc : compileAll G cfg.patterns with
    | error err => exact ⟨err, by simp [build_globsets, hinc]⟩
    | ok ms =>
        have hne : cfg.exclude_patterns.isEmpty = false := by
          cases hl : cfg.exclude_patterns with
          | nil => rw [hl] at hq; simp at hq
          | cons a as => simp [hl]
        obtain ⟨err, herr⟩ := compileAll_err G cfg.exclude_patterns q hq hbad
        exact ⟨err, by simp [build_globsets, hinc, hne, herr]⟩

/-- With confirmation not skipped, `handle_matched_entry` never takes
the eager branch, so the `dry_run` flag is irrelevant to it. -/
theorem handle_dry_eq (remove : RPath → Option String) (cfg : CleanConfig)
    (e : Entry) (pat : String) (s : JobState) (d1 d2 : Bool)
    (h : cfg.skip_confirmation = false) :
    handle_matched_entry remove { cfg with dry_run := d1 } e pat s =
    handle_matched_entry remove { cfg with dry_run := d2 } e pat s := by
  unfold handle_matched_entry
  cases e.metadata with
  | none => rfl
  | some md =>
      simp only [h]
      rfl

/-- With confirmation not skipped, one walk-loop iteration is
independent of the `dry_run` flag. -/
theorem collect_step_dry_eq (remove : RPath → Option String) (base : RPath)
    (ms : List (String × Matcher)) (ex : Option Matcher) (cfg : CleanConfig)
    (s : JobState) (e : Entry) (d1 d2 : Bool)
    (h : cfg.skip_confirmation = false) :
    collect_step remove base ms ex { cfg with dry_run := d1 } s e =
    collect_step remove base ms ex { cfg with dry_run := d2 } s e := by
  unfold collect_step
  rw [handle_dry_eq remove cfg e "broken-symlink" s d1 d2 h,
    handle_dry_eq remove cfg e ((find_matching_pattern ms e.path).getD "unknown") s d1 d2 h]

mutual

/-- With confirmation not skipped, the tree walk is independent of the
`dry_run` flag (no eager deletion, hence no pruning, happens in either
mode). -/
theorem walkTree_dry_eq (remove : RPath → Option String) (base : RPath)
    (ms : List (String × Matcher)) (ex : Option Matcher) (cfg : CleanConfig)
    (d1 d2 : Bool) (h : cfg.skip_confirmation = false) (path : RPath)
    (t : FSTree) (s : JobState) :
    walkTree remove base ms ex { cfg with dry_run := d1 } path t s =
    walkTree remove base ms ex { cfg with dry_run := d2 } path t s := by
  cases t with
  | file sz el =>
      simp only [walkTree]
      rw [collect_step_dry_eq remove base ms ex cfg s _ d1 d2 h]
  | dir el cs =>
      simp only [walkTree]
      rw [collect_step_dry_eq remove base ms ex cfg s _ d1 d2 h,
        walkForest_dry_eq remove base ms ex cfg d1 d2 h path cs]

/-- Forest version of `walkTree_dry_eq`. -/
theorem walkForest_dry_eq (remove : RPath → Option String) (base : RPath)
    (ms : List (String × Matcher)) (ex : Option Matcher) (cfg : CleanConfig)
    (d1 d2 : Bool) (h : cfg.skip_confirmation = false) (path : RPath)
    (l : List (String × FSTree)) (s : JobState) :
    walkForest remove base ms ex { cfg with dry_run := d1 } path l s =
    walkForest remove base ms ex { cfg with dry_run := d2 } path l s := by
  cases l with
  | nil => rfl
  | cons c rest =>
      simp only [walkForest]
      rw [walkTree_dry_eq remove base ms ex cfg d1 d2 h (path ++ [c.1]) c.2 s,
        walkForest_dry_eq remove base ms ex cfg d1 d2 h path rest]

end

mutual

/-- Without eager deletion the tree walk attempts no removal. -/
theorem walkTree_no_eager (remove : RPath → Option String) (base : RPath)
    (ms : List (String × Matcher)) (ex : Option Matcher) (cfg : CleanConfig)
    (h : cfg.skip_confirmation = false ∨ cfg.dry_run = true) (path : RPath)
    (t : FSTree) (s : JobState) :
    (walkTree remove base ms ex cfg path t s).2 = [] := by
  cases t with
  | file sz el =>
      simp only [walkTree]
      have hs := collect_step_no_eager remove base ms ex cfg s
        (FSTree.toEntry path (.file sz el)) h
      rw [show (collect_step remove base ms ex cfg s
        (FSTree.toEntry path (.file sz el))).2.1 = [] by rw [hs]]
  | dir el cs =>
      simp only [walkTree]
      have hs := collect_step_no_eager remove base ms ex cfg s
        (FSTree.toEntry path (.dir el cs)) h
      rw [show (collect_step remove base ms ex cfg s
          (FSTree.toEntry path (.dir el cs))).2.2 = false by rw [hs]]
      simp only [Bool.false_eq_true, if_false]
      rw [show (collect_step remove base ms ex cfg s
          (FSTree.toEntry path (.dir el cs))).2.1 = [] by rw [hs]]
      rw [walkForest_no_eager remove base ms ex cfg h path cs]
      rfl

/-- Forest version of `walkTree_no_eager`. -/
theorem walkForest_no_eager (remove : RPath → Option String) (base : RPath)
    (ms : List (String × Matcher)) (ex : Option Matcher) (cfg : CleanConfig)
    (h : cfg.skip_confirmation = false ∨ cfg.dry_run = true) (path : RPath)
    (l : List (String × FSTree)) (s : JobState) :
    (walkForest remove base ms ex cfg path l s).2 = [] := by
  cases l with
  | nil => rfl
  | cons c rest =>
      simp only [walkForest]
      rw [walkTree_no_eager remove base ms ex cfg h (path ++ [c.1]) c.2 s]
      rw [walkForest_no_eager remove base ms ex cfg h path rest]
      rfl

end

/-- In a dry run the run tail attempts nothing beyond what the walk
already logged. -/
theorem finish_run_dry (remove : RPath → Option String) (cfg : CleanConfig)
    (confirm : Option Bool) (s : JobState) (atts : List RPath)
    (h : cfg.dry_run = true) :
    (finish_run remove cfg confirm s atts).2.2 = atts := by
  unfold finish_run
  split
  · cases confirm with
    | none => rfl
    | some b =>
        cases b
        · rfl
        · simp only
          unfold execute_deletion
          rw [delete_loop_dry remove cfg h]
          simp
  · rfl

/-- With confirmation not skipped, the run tail produces the same
counter, size, stats and matched items whether or not it is a dry run,
and the dry-run tail adds no removal attempts. -/
theorem finish_run_dry_pair (remove : RPath → Option String) (cfg : CleanConfig)
    (confirm : Option Bool) (s0 : JobState) (atts : List RPath)
    (h : cfg.skip_confirmation = false) :
    (finish_run remove { cfg with dry_run := true } confirm s0 atts).2.1.counter =
      (finish_run remove { cfg with dry_run := false } confirm s0 atts).2.1.counter ∧
    (finish_run remove { cfg with dry_run := true } confirm s0 atts).2.1.size =
      (finish_run remove { cfg with dry_run := false } confirm s0 atts).2.1.size ∧
    (finish_run remove { cfg with dry_run := true } confirm s0 atts).2.1.stats =
      (finish_run remove { cfg with dry_run := false } confirm s0 atts).2.1.stats ∧
    (finish_run remove { cfg with dry_run := true } confirm s0 atts).2.1.matched_items =
      (finish_run remove { cfg with dry_run := false } confirm s0 atts).2.1.matched_items ∧
    (finish_run remove { cfg with dry_run := true } confirm s0 atts).2.2 = atts := by
  unfold finish_run
  by_cases hts : s0.targets.isEmpty
  · simp [hts]
  · have hts2 : s0.targets.isEmpty = false := by simpa using hts
    simp only [hts2, h, Bool.not_false, Bool.and_self, if_pos]
    cases confirm with
    | none => simp
    | some b =>
        cases b
        · simp
        · simp only
          unfold execute_deletion
          rw [delete_loop_dry remove _ rfl _, delete_loop_spec remove _ rfl _ _]
          simp

/-!
Claim theorems.
-/

/-- C3: during a bulk deletion pass every removable buffered target is
attempted, in order, whatever the removal oracle answers — so every
target after a failing one is still attempted — each failure is
recorded as a (path, error message) pair, and the pass only ever
touches the failure list (counter and size are untouched, and nothing
aborts). -/
theorem deletion_failures_never_abort (remove : RPath → Option String)
    (cfg : CleanConfig) (s : JobState) (h : cfg.dry_run = false) :
    (execute_deletion remove cfg s).2 =
      (s.targets.filterMap fun t => if removable t.2 then some t.1 else none) ∧
    (execute_deletion remove cfg s).1.failed_deletions =
      s.failed_deletions ++ (s.targets.filterMap fun t =>
        if removable t.2 then (remove t.1).map (fun m => (t.1, m)) else none) ∧
    (execute_deletion remove cfg s).1.counter = s.counter ∧
    (execute_deletion remove cfg s).1.size = s.size := by
  unfold execute_deletion
  rw [delete_loop_spec remove cfg h _ _]
  simp

/-- Witness for C3: with two buffered targets and an oracle failing on
the first, both targets are attempted and the one failure is
recorded. -/
theorem deletion_failures_never_abort_witness :
    ({ exCfg with skip_confirmation := false } : CleanConfig).dry_run = false ∧
    ((execute_deletion removeFailA { exCfg with skip_confirmation := false } sTwoTargets).2 =
      (sTwoTargets.targets.filterMap fun t => if removable t.2 then some t.1 else none) ∧
    (execute_deletion removeFailA { exCfg with skip_confirmation := false } sTwoTargets).1.failed_deletions =
      sTwoTargets.failed_deletions ++ (sTwoTargets.targets.filterMap fun t =>
        if removable t.2 then (removeFailA t.1).map (fun m => (t.1, m)) else none) ∧
    (execute_deletion removeFailA { exCfg with skip_confirmation := false } sTwoTargets).1.counter =
      sTwoTargets.counter ∧
    (execute_deletion removeFailA { exCfg with skip_confirmation := false } sTwoTargets).1.size =
      sTwoTargets.size) :=
  ⟨rfl, deletion_failures_never_abort removeFailA
    { exCfg with skip_confirmation := false } sTwoTargets rfl⟩

/-- C4 counterexample: for the non-symlink entry `eNoCanon`, whose
canonicalization fails, the guard answers safe and one eager-mode
walk-loop iteration processes the entry fully — counter incremented
and a removal of its path attempted — refuting the claim that the
guard causes such an entry to be skipped and never deleted. -/
theorem canon_failure_processed_counterexample :
    eNoCanon.isSymlink = false ∧ eNoCanon.canonical = none ∧
    is_path_safe ["root"] eNoCanon.canonical eNoCanon.isSymlink = true ∧
    (collect_step removeOk ["root"] [("**/*.pyc", mPyc)] none exCfg
      JobState.init eNoCanon).1.counter = 1 ∧
    (collect_step removeOk ["root"] [("**/*.pyc", mPyc)] none exCfg
      JobState.init eNoCanon).2.1 = [["root", "ghost.pyc"]] :=
  ⟨rfl, rfl, rfl, by rfl, by rfl⟩

/-- C4 amended: when the candidate is not a symlink and its
canonicalization fails, the guard treats it as "cannot verify" and
accepts it (returns safe, so the entry is processed further and may be
deleted); the failure is never fatal to the run. -/
theorem canon_failure_guard_accepts (base : RPath) :
    is_path_safe base none false = true := rfl

/-- C5 counterexample: a broken symlink whose path matches both the
include matcher and the exclude matcher (here the match-all matcher on
both sides) is, with `remove_broken_symlinks` on, still counted in the
aggregates and its removal attempted — refuting the claim that every
path matching an include and an exclude pattern is dropped before any
aggregate update and never deleted. -/
theorem broken_symlink_exclude_counterexample :
    mAll eBroken.path = true ∧
    (collect_step removeOk ["root"] [("**/*", mAll)] (some mAll)
      { exCfg with remove_broken_symlinks := true } JobState.init eBroken).1.counter = 1 ∧
    (collect_step removeOk ["root"] [("**/*", mAll)] (some mAll)
      { exCfg with remove_broken_symlinks := true } JobState.init eBroken).2.1 =
      [["root", "link"]] :=
  ⟨rfl, rfl, rfl⟩

/-- C5 amended: for every entry that is not routed through the
broken-symlink path, matching an include matcher and the exclude set
drops the path before any aggregate (counter, size, stats,
matched-item list, target buffer) is updated and attempts no removal,
regardless of pattern declaration order (the exclude set always
overrides). -/
theorem exclude_overrides_include (remove : RPath → Option String)
    (base : RPath) (ms : List (String × Matcher)) (x : Matcher)
    (cfg : CleanConfig) (s : JobState) (e : Entry)
    (hin : (ms.any fun pm => pm.2 e.path) = true)
    (hxm : x e.path = true)
    (hnb : ¬(cfg.remove_broken_symlinks = true ∧ e.isSymlink = true ∧
      e.followMetaOk = false)) :
    collect_step remove base ms (some x) cfg s e = (s, [], false) := by
  have hbr : (cfg.remove_broken_symlinks && e.isSymlink && !e.followMetaOk) = false := by
    by_cases h1 : cfg.remove_broken_symlinks <;> by_cases h2 : e.isSymlink <;>
      by_cases h3 : e.followMetaOk <;> simp_all
  unfold collect_step
  by_cases hsp : should_process e.path
  · simp [hsp, hbr, hin, hxm]
  · simp [hsp]

/-- Witness for C5 amended: a plain file matching both the include and
the exclude matcher is dropped with no state change. -/
theorem exclude_overrides_include_witness :
    (([("**/*", mAll)] : List (String × Matcher)).any fun pm => pm.2 eFile.path) = true ∧
    mAll eFile.path = true ∧
    collect_step removeOk ["root"] [("**/*", mAll)] (some mAll) exCfg
      JobState.init eFile = (JobState.init, [], false) :=
  ⟨rfl, rfl,
    exclude_overrides_include removeOk ["root"] [("**/*", mAll)] mAll exCfg
      JobState.init eFile rfl rfl (by simp [exCfg])⟩

/-- C7: with a minimum-age threshold configured and the elapsed time
since modification known, an entry strictly younger than the threshold
is discarded with no state change at all (no counter, size, stats,
matched-item or target update, no removal), while an entry whose
elapsed time equals or exceeds the threshold is matched: counter
incremented and size accumulated. -/
theorem age_filter_strict_lower_bound (remove : RPath → Option String)
    (cfg : CleanConfig) (e : Entry) (pat : String) (s : JobState)
    (t el : Nat) (md : Metadata) (ht : cfg.older_than_secs = some t)
    (hmd : e.metadata = some md) (hel : md.elapsed = some el) :
    (el < t → handle_matched_entry remove cfg e pat s = (s, [], false)) ∧
    (t ≤ el →
      (handle_matched_entry remove cfg e pat s).1.counter = s.counter + 1 ∧
      (handle_matched_entry remove cfg e pat s).1.size = s.size + itemSize e md) := by
  constructor
  · intro hlt
    exact handle_age_rejects remove cfg e pat s md hmd
      (by simp [ageSkip, ht, hel, hlt])
  · intro hge
    have ha : ageSkip cfg md = false := by
      simp [ageSkip, ht, hel]
      omega
    have h := handle_accum remove cfg e pat s md hmd ha
    exact ⟨h.1, h.2.1⟩

/-- Witness for C7: a file 7200 seconds old against a 3600-second
threshold yields counter 1; the same file 0 seconds old is discarded
(counter stays 0). -/
theorem age_filter_strict_lower_bound_witness :
    (({ exCfg with older_than_secs := some 3600 } : CleanConfig).older_than_secs =
      some 3600 ∧
     (3600 ≤ 7200) ∧
     (handle_matched_entry removeOk { exCfg with older_than_secs := some 3600 }
        { eFile with metadata := some { mdFile with elapsed := some 7200 } }
        "**/*.pyc" JobState.init).1.counter = 1) ∧
    ((0 < 3600) ∧
     handle_matched_entry removeOk { exCfg with older_than_secs := some 3600 }
        { eFile with metadata := some { mdFile with elapsed := some 0 } }
        "**/*.pyc" JobState.init = (JobState.init, [], false)) :=
  ⟨⟨rfl, by omega,
    ((age_filter_strict_lower_bound removeOk
      { exCfg with older_than_secs := some 3600 }
      { eFile with metadata := some { mdFile with elapsed := some 7200 } }
      "**/*.pyc" JobState.init 3600 7200 { mdFile with elapsed := some 7200 }
      rfl rfl rfl).2 (by omega)).1⟩,
   ⟨by omega,
    (age_filter_strict_lower_bound removeOk
      { exCfg with older_than_secs := some 3600 }
      { eFile with metadata := some { mdFile with elapsed := some 0 } }
      "**/*.pyc" JobState.init 3600 0 { mdFile with elapsed := some 0 }
      rfl rfl rfl).1 (by omega)⟩⟩

/-- C8: with `remove_broken_symlinks` on, a symlink entry whose
followed metadata cannot be resolved is routed to match handling with
the "broken-symlink" tag before, and independently of, the include and
exclude matchers (the equation holds for every `ms` and `ex`), and in
an eager non-dry run that passes the age filter its removal is
attempted regardless of what the matchers say. -/
theorem broken_symlink_bypasses_patterns (remove : RPath → Option String)
    (base : RPath) (ms : List (String × Matcher)) (ex : Option Matcher)
    (cfg : CleanConfig) (e : Entry) (s : JobState) (md : Metadata)
    (hrb : cfg.remove_broken_symlinks = true) (hsym : e.isSymlink = true)
    (hmeta : e.followMetaOk = false) (hsp : should_process e.path = true) :
    collect_step remove base ms ex cfg s e =
      handle_matched_entry remove cfg e "broken-symlink" s ∧
    (e.metadata = some md → ageSkip cfg md = false →
      cfg.skip_confirmation = true → cfg.dry_run = false → removable md = true →
      (collect_step remove base ms ex cfg s e).2.1 = [e.path]) := by
  have heq : collect_step remove base ms ex cfg s e =
      handle_matched_entry remove cfg e "broken-symlink" s := by
    unfold collect_step
    simp [hsp, hrb, hsym, hmeta]
  refine ⟨heq, fun hmd ha h1 h2 h3 => ?_⟩
  rw [heq]
  exact (handle_accum remove cfg e "broken-symlink" s md hmd ha).2.2 h1 h2 h3

/-- Witness for C8: the broken symlink `root/link`, which matches no
include pattern and is matched by the exclude matcher, is still
attempted for removal in eager mode. -/
theorem broken_symlink_bypasses_patterns_witness :
    (({ exCfg with remove_broken_symlinks := true } : CleanConfig).remove_broken_symlinks = true ∧
     eBroken.isSymlink = true ∧ eBroken.followMetaOk = false ∧
     should_process eBroken.path = true) ∧
    (collect_step removeOk ["root"] [("**/*.pyc", mPyc)] (some mAll)
      { exCfg with remove_broken_symlinks := true } JobState.init eBroken =
      handle_matched_entry removeOk { exCfg with remove_broken_symlinks := true }
        eBroken "broken-symlink" JobState.init) ∧
    (collect_step removeOk ["root"] [("**/*.pyc", mPyc)] (some mAll)
      { exCfg with remove_broken_symlinks := true } JobState.init eBroken).2.1 =
      [eBroken.path] :=
  ⟨⟨rfl, rfl, rfl, rfl⟩,
   (broken_symlink_bypasses_patterns removeOk ["root"] [("**/*.pyc", mPyc)]
      (some mAll) { exCfg with remove_broken_symlinks := true } eBroken
      JobState.init mdSymlink rfl rfl rfl rfl).1,
   (broken_symlink_bypasses_patterns removeOk ["root"] [("**/*.pyc", mPyc)]
      (some mAll) { exCfg with remove_broken_symlinks := true } eBroken
      JobState.init mdSymlink rfl rfl rfl rfl).2
      rfl rfl rfl rfl rfl⟩

/-- C10: with a minimum-age threshold configured, an entry whose
elapsed-time-since-modification computation fails (unreadable or
future modification time) is not discarded by the age filter: it is
counted in the aggregates, and in an eager non-dry run its removal is
attempted like any old-enough entry. -/
theorem age_filter_fails_open (remove : RPath → Option String)
    (cfg : CleanConfig) (e : Entry) (pat : String) (s : JobState)
    (t : Nat) (md : Metadata) (ht : cfg.older_than_secs = some t)
    (hmd : e.metadata = some md) (hel : md.elapsed = none) :
    (handle_matched_entry remove cfg e pat s).1.counter = s.counter + 1 ∧
    (handle_matched_entry remove cfg e pat s).1.size = s.size + itemSize e md ∧
    (cfg.skip_confirmation = true → cfg.dry_run = false → removable md = true →
      (handle_matched_entry remove cfg e pat s).2.1 = [e.path]) := by
  have ha : ageSkip cfg md = false := by simp [ageSkip, ht, hel]
  exact handle_accum remove cfg e pat s md hmd ha

/-- Witness for C10: a file with unreadable modification time, under a
3600-second threshold, is counted and attempted in eager mode. -/
theorem age_filter_fails_open_witness :
    (({ exCfg with older_than_secs := some 3600 } : CleanConfig).older_than_secs =
       some 3600 ∧
     ({ mdFile with elapsed := none } : Metadata).elapsed = none) ∧
    (handle_matched_entry removeOk { exCfg with older_than_secs := some 3600 }
      { eFile with metadata := some { mdFile with elapsed := none } }
      "**/*.pyc" JobState.init).1.counter = 1 ∧
    (handle_matched_entry removeOk { exCfg with older_than_secs := some 3600 }
      { eFile with metadata := some { mdFile with elapsed := none } }
      "**/*.pyc" JobState.init).2.1 =
      [["root", "a.pyc"]] :=
  ⟨⟨rfl, rfl⟩,
   (age_filter_fails_open removeOk { exCfg with older_than_secs := some 3600 }
      { eFile with metadata := some { mdFile with elapsed := none } }
      "**/*.pyc" JobState.init 3600 { mdFile with elapsed := none }
      rfl rfl rfl).1,
   (age_filter_fails_open removeOk { exCfg with older_than_secs := some 3600 }
      { eFile with metadata := some { mdFile with elapsed := none } }
      "**/*.pyc" JobState.init 3600 { mdFile with elapsed := none }
      rfl rfl rfl).2.2 rfl rfl rfl⟩

/-- C1: whenever the glob patterns compile and the confirmation
mechanism is available, the run completes successfully, and every
removal the run ever attempts is of the path of some walked entry that
passed the lexical `..` filter and the safety guard — in particular a
non-symlink entry whose canonicalization succeeded canonicalizes to a
descendant of the canonicalized root, so an include pattern resolving
outside the root (such as `../../*.txt`) never causes a deletion
outside the root. -/
theorem run_deletes_only_inside_root (G : String → Option Matcher)
    (remove : RPath → Option String) (confirm : Option Bool) (base : RPath)
    (cfg : CleanConfig) (entries : List Entry)
    (hG : ∀ q ∈ cfg.patterns ++ cfg.exclude_patterns, (G q).isSome)
    (hc : confirm.isSome) :
    (run G remove confirm (some base) cfg entries JobState.init).1 = .ok () ∧
    ∀ p ∈ (run G remove confirm (some base) cfg entries JobState.init).2.2,
      ∃ e ∈ entries, p = e.path ∧ guardOk base e := by
  obtain ⟨⟨ms, ex⟩, hb⟩ := build_globsets_ok G cfg hG
  have hrun : run G remove confirm (some base) cfg entries JobState.init =
      finish_run remove cfg confirm
        (collect_targets remove base ms ex cfg JobState.init entries).1
        (collect_targets remove base ms ex cfg JobState.init entries).2 := by
    simp only [run, hb]
  rw [hrun]
  obtain ⟨ts, hts, hqs, hps⟩ :=
    collect_targets_safe remove base ms ex cfg entries JobState.init
  constructor
  · exact finish_run_ok remove cfg confirm _ _ hc
  · intro p hp
    rcases finish_run_atts remove cfg confirm _ _ p hp with hp2 | ⟨md, hmd⟩
    · exact hps p hp2
    · rw [hts] at hmd
      simp only [JobState.init, List.nil_append] at hmd
      obtain ⟨e, he, h1, h2⟩ := hqs (p, md) hmd
      exact ⟨e, he, h1, h2⟩

/-- Witness for C1: a single in-root file entry under the example
patterns; the run succeeds and every attempted removal traces back to
a guarded entry. -/
theorem run_deletes_only_inside_root_witness :
    (run exG removeOk (some true) (some ["root"]) exCfg [eFile] JobState.init).1 =
      .ok () ∧
    ∀ p ∈ (run exG removeOk (some true) (some ["root"]) exCfg [eFile]
      JobState.init).2.2,
      ∃ e ∈ [eFile], p = e.path ∧ guardOk ["root"] e :=
  run_deletes_only_inside_root exG removeOk (some true) ["root"] exCfg [eFile]
    (by decide) (by decide)

/-- C6: if any include or exclude pattern fails to compile, the run
returns a fatal error, leaves the job state untouched, and attempts no
removal at all — all matchers are compiled before the walk, so even an
eager-deletion configuration deletes nothing. -/
theorem invalid_pattern_aborts_run (G : String → Option Matcher)
    (remove : RPath → Option String) (confirm : Option Bool)
    (baseC : Option RPath) (cfg : CleanConfig) (entries : List Entry)
    (q : String) (hq : q ∈ cfg.patterns ++ cfg.exclude_patterns)
    (hbad : G q = none) :
    (∃ err, (run G remove confirm baseC cfg entries JobState.init).1 = .error err) ∧
    (run G remove confirm baseC cfg entries JobState.init).2.1 = JobState.init ∧
    (run G remove confirm baseC cfg entries JobState.init).2.2 = [] := by
  cases baseC with
  | none => exact ⟨⟨.configError "Invalid path", rfl⟩, rfl, rfl⟩
  | some base =>
      obtain ⟨err, herr⟩ := build_globsets_err G cfg q hq hbad
      refine ⟨⟨err, ?_⟩, ?_, ?_⟩ <;> simp only [run, herr]

/-- Witness for C6: an invalid first pattern in an eager configuration
with a matching entry present — the run errors out with no state
change and no removal attempt. -/
theorem invalid_pattern_aborts_run_witness :
    ("[invalid" ∈ ({ exCfg with patterns := ["[invalid", "**/*.pyc"] }
        : CleanConfig).patterns ++ exCfg.exclude_patterns ∧
      exG "[invalid" = none) ∧
    (∃ err, (run exG removeOk (some true) (some ["root"])
      { exCfg with patterns := ["[invalid", "**/*.pyc"] } [eFile]
      JobState.init).1 = .error err) ∧
    (run exG removeOk (some true) (some ["root"])
      { exCfg with patterns := ["[invalid", "**/*.pyc"] } [eFile]
      JobState.init).2.1 = JobState.init ∧
    (run exG removeOk (some true) (some ["root"])
      { exCfg with patterns := ["[invalid", "**/*.pyc"] } [eFile]
      JobState.init).2.2 = [] :=
  ⟨⟨by decide, by rfl⟩,
    invalid_pattern_aborts_run exG removeOk (some true) (some ["root"])
      { exCfg with patterns := ["[invalid", "**/*.pyc"] } [eFile]
      "[invalid" (by decide) (by rfl)⟩

/-- C9: with confirmation required and a negative answer given, the
run returns success with the job state exactly as the walk left it
(buffered targets untouched, counter and size computed at match time)
and no removal is ever attempted. -/
theorem negative_confirmation_cancels_cleanly (G : String → Option Matcher)
    (remove : RPath → Option String) (base : RPath) (cfg : CleanConfig)
    (entries : List Entry) (ms : List (String × Matcher)) (ex : Option Matcher)
    (hsc : cfg.skip_confirmation = false)
    (hb : build_globsets G cfg = .ok (ms, ex)) :
    run G remove (some false) (some base) cfg entries JobState.init =
      (.ok (), (collect_targets remove base ms ex cfg JobState.init entries).1,
        []) := by
  have hrun : run G remove (some false) (some base) cfg entries JobState.init =
      finish_run remove cfg (some false)
        (collect_targets remove base ms ex cfg JobState.init entries).1
        (collect_targets remove base ms ex cfg JobState.init entries).2 := by
    simp only [run, hb]
  rw [hrun, finish_run_neg,
    collect_targets_no_eager remove base ms ex cfg entries (.inl hsc) JobState.init]

/-- Witness for C9: one matching file entry, confirmation answered
negatively — the run ends `Ok` with the walk's state and no attempts. -/
theorem negative_confirmation_cancels_cleanly_witness :
    ({ exCfg with skip_confirmation := false } : CleanConfig).skip_confirmation
      = false ∧
    run exG removeOk (some false) (some ["root"])
      { exCfg with skip_confirmation := false } [eFile] JobState.init =
      (.ok (),
       (collect_targets removeOk ["root"]
         [("**/__pycache__", mPycache), ("**/*.pyc", mPyc)] none
         { exCfg with skip_confirmation := false } JobState.init [eFile]).1,
       []) :=
  ⟨rfl,
    negative_confirmation_cancels_cleanly exG removeOk ["root"]
      { exCfg with skip_confirmation := false } [eFile]
      [("**/__pycache__", mPycache), ("**/*.pyc", mPyc)] none rfl (by rfl)⟩

/-- C2 amended: a dry run never attempts a removal (the filesystem is
left unmodified) for every configuration; and when confirmation is not
skipped (buffered-deletion mode) a dry run produces exactly the same
counter, total size, per-pattern statistics and matched-item records
as a real run on the same tree.  (In eager mode — skip_confirmation
with a real run — deleting a matched directory mid-walk prunes its
descendants from the walk, so the original all-configurations claim
fails; see the counterexample.) -/
theorem dry_run_equivalence_buffered (G : String → Option Matcher)
    (remove : RPath → Option String) (confirm : Option Bool) (root : RPath)
    (tree : FSTree) (cfg : CleanConfig) (s : JobState) :
    (cfg.dry_run = true → (runTree G remove confirm root tree cfg s).2.2 = []) ∧
    (cfg.skip_confirmation = false →
      ((runTree G remove confirm root tree { cfg with dry_run := true } s).2.1.counter =
        (runTree G remove confirm root tree { cfg with dry_run := false } s).2.1.counter ∧
       (runTree G remove confirm root tree { cfg with dry_run := true } s).2.1.size =
        (runTree G remove confirm root tree { cfg with dry_run := false } s).2.1.size ∧
       (runTree G remove confirm root tree { cfg with dry_run := true } s).2.1.stats =
        (runTree G remove confirm root tree { cfg with dry_run := false } s).2.1.stats ∧
       (runTree G remove confirm root tree { cfg with dry_run := true } s).2.1.matched_items =
        (runTree G remove confirm root tree { cfg with dry_run := false } s).2.1.matched_items ∧
       (runTree G remove confirm root tree { cfg with dry_run := true } s).2.2 = [])) := by
  constructor
  · intro hd
    cases hbt : build_globsets G cfg with
    | error err => simp only [runTree, hbt]
    | ok msex =>
        obtain ⟨ms, ex⟩ := msex
        have hrt : runTree G remove confirm root tree cfg s =
            finish_run remove cfg confirm
              (walkTree remove root ms ex cfg root tree s).1
              (walkTree remove root ms ex cfg root tree s).2 := by
          simp only [runTree, hbt]
        rw [hrt, finish_run_dry remove cfg confirm _ _ hd,
          walkTree_no_eager remove root ms ex cfg (.inr hd) root tree s]
  · intro hsc
    cases hbt : build_globsets G cfg with
    | error err =>
        have h1 : build_globsets G { cfg with dry_run := true } = .error err := hbt
        have h2 : build_globsets G { cfg with dry_run := false } = .error err := hbt
        simp [runTree, h1, h2]
    | ok msex =>
        obtain ⟨ms, ex⟩ := msex
        have h1 : build_globsets G { cfg with dry_run := true } = .ok (ms, ex) := hbt
        have h2 : build_globsets G { cfg with dry_run := false } = .ok (ms, ex) := hbt
        have hrt1 : runTree G remove confirm root tree { cfg with dry_run := true } s =
            finish_run remove { cfg with dry_run := true } confirm
              (walkTree remove root ms ex { cfg with dry_run := true } root tree s).1
              (walkTree remove root ms ex { cfg with dry_run := true } root tree s).2 := by
          simp only [runTree, h1]
        have hrt2 : runTree G remove confirm root tree { cfg with dry_run := false } s =
            finish_run remove { cfg with dry_run := false } confirm
              (walkTree remove root ms ex { cfg with dry_run := false } root tree s).1
              (walkTree remove root ms ex { cfg with dry_run := false } root tree s).2 := by
          simp only [runTree, h2]
        rw [hrt1, hrt2, walkTree_dry_eq remove root ms ex cfg true false hsc root tree s]
        have hw : (walkTree remove root ms ex { cfg with dry_run := false } root tree s).2 = [] :=
          walkTree_no_eager remove root ms ex { cfg with dry_run := false }
            (.inl hsc) root tree s
        have hp := finish_run_dry_pair remove cfg confirm
          (walkTree remove root ms ex { cfg with dry_run := false } root tree s).1
          (walkTree remove root ms ex { cfg with dry_run := false } root tree s).2 hsc
        refine ⟨hp.1, hp.2.1, hp.2.2.1, hp.2.2.2.1, ?_⟩
        rw [hp.2.2.2.2]
        exact hw

/-- Witness for C2 amended: the example tree under the example
patterns in buffered mode — the dry and real runs agree on all
aggregates and the dry run attempts nothing. -/
theorem dry_run_equivalence_buffered_witness :
    (({ exCfg with skip_confirmation := false } : CleanConfig).dry_run = true →
      (runTree exG removeOk (some true) ["root"] exTree
        { exCfg with skip_confirmation := false } JobState.init).2.2 = []) ∧
    (({ exCfg with skip_confirmation := false } : CleanConfig).skip_confirmation = false →
      ((runTree exG removeOk (some true) ["root"] exTree
          { exCfg with skip_confirmation := false, dry_run := true } JobState.init).2.1.counter =
        (runTree exG removeOk (some true) ["root"] exTree
          { exCfg with skip_confirmation := false, dry_run := false } JobState.init).2.1.counter ∧
       (runTree exG removeOk (some true) ["root"] exTree
          { exCfg with skip_confirmation := false, dry_run := true } JobState.init).2.1.size =
        (runTree exG removeOk (some true) ["root"] exTree
          { exCfg with skip_confirmation := false, dry_run := false } JobState.init).2.1.size ∧
       (runTree exG removeOk (some true) ["root"] exTree
          { exCfg with skip_confirmation := false, dry_run := true } JobState.init).2.1.stats =
        (runTree exG removeOk (some true) ["root"] exTree
          { exCfg with skip_confirmation := false, dry_run := false } JobState.init).2.1.stats ∧
       (runTree exG removeOk (some true) ["root"] exTree
          { exCfg with skip_confirmation := false, dry_run := true } JobState.init).2.1.matched_items =
        (runTree exG removeOk (some true) ["root"] exTree
          { exCfg with skip_confirmation := false, dry_run := false } JobState.init).2.1.matched_items ∧
       (runTree exG removeOk (some true) ["root"] exTree
          { exCfg with skip_confirmation := false, dry_run := true } JobState.init).2.2 = [])) :=
  dry_run_equivalence_buffered exG removeOk (some true) ["root"] exTree
    { exCfg with skip_confirmation := false } JobState.init

/-- C2 counterexample: on the tree `root/__pycache__/x.pyc` with
include patterns `**/__pycache__` and `**/*.pyc` in an eager
configuration (skip_confirmation, not json-suppressed), the dry run
matches both the directory and the file inside it (counter 2, size
20), while the real run deletes the matched directory during the walk,
pruning its contents from the walk, and matches only the directory
(counter 1, size 10) — refuting the claim that dry and real runs agree
for every configuration including eager mode. -/
theorem dry_run_eager_counterexample :
    exCfg.skip_confirmation = true ∧ exCfg.dry_run = false ∧
    (runTree exG removeOk (some true) ["root"] exTree
      { exCfg with dry_run := true } JobState.init).2.1.counter = 2 ∧
    (runTree exG removeOk (some true) ["root"] exTree exCfg
      JobState.init).2.1.counter = 1 ∧
    (runTree exG removeOk (some true) ["root"] exTree
      { exCfg with dry_run := true } JobState.init).2.1.size = 20 ∧
    (runTree exG removeOk (some true) ["root"] exTree exCfg
      JobState.init).2.1.size = 10 ∧
    (runTree exG removeOk (some true) ["root"] exTree exCfg
      JobState.init).2.2 = [["root", "__pycache__"]] :=
  ⟨rfl, rfl, by rfl, by rfl, by rfl, by rfl, by rfl⟩

end RClean
